import Mathlib

/-!
Verification of the scylla-rust-driver prepared-statement binding subsystem,
token computation, load-balancing wrapper composition, and cloud TLS-config
selection, as a shallow embedding of the repository's code.

Embedded source files:
* `scylla/src/statement/bound.rs` — `BoundStatement`, `StatementBinder` and the
  three concrete binders (appending, by-index, by-name) with their error enums.
* `examples/benchmark.rs` — the `NonShardAwareLB` load-balancing policy wrapper.
* `scylla/src/cloud/mod.rs` — `make_tls_config_for_scylla_cloud_host`.

Parts of the repository not present under the source tree (the value-serializer
codecs of `scylla_cql`, `PreparedStatement::serialize_values`, `PartitionKey`
extraction, and `ClusterState::compute_token{,_preserialized}`) are modelled
from the specification; each such definition's doc comment says so explicitly.
-/

namespace ScyllaDriver

/-! ## Value types and the value serializer -/

/-- CQL declared column types. The spec treats concrete value codecs as an
external collaborator, so a small closed set of native types suffices to
exercise every code path (in particular type mismatches). -/
inductive ColumnType where
  | int
  | text
deriving DecidableEq, Repr

/-- CQL values that can be bound to a statement. -/
inductive Value where
  | int (v : Int)
  | text (s : String)
deriving DecidableEq, Repr

/-- A byte string, each element intended to be `< 256`. -/
abbrev Bytes := List Nat

/-- Big-endian 4-byte encoding of a natural number (used for the `i32` length
prefixes of the CQL wire format). -/
def encodeBE32 (n : Nat) : Bytes :=
  [n / 2 ^ 24 % 256, n / 2 ^ 16 % 256, n / 2 ^ 8 % 256, n % 256]

/-- Big-endian 2-byte encoding (used for the `u16` component length in the
Cassandra composite partition-key format). -/
def encodeBE16 (n : Nat) : Bytes :=
  [n / 2 ^ 8 % 256, n % 256]

/-- Modelled from the spec: the value-serializer trait of `scylla_cql`
(`SerializeValue::serialize`), `(value, declared_type) → bytes`; a type
mismatch returns a Serialization error (here `none`), and the codec never
silently coerces. Oversized values are rejected, mirroring the `i32` length
limit of the wire format. -/
def serializeValue : Value → ColumnType → Option Bytes
  | .int v, .int => some (encodeBE32 (v % (2 ^ 32 : Int)).toNat)
  | .text s, .text =>
      if s.length < 2 ^ 32 then some (s.toList.map Char.toNat) else none
  | _, _ => none

/-! ## SerializedValues -/

/-- Embeds `scylla_cql::serialize::row::SerializedValues`: an append-only byte
buffer (length-prefixed concatenation of values in insertion order) together
with a value count. -/
structure SerializedValues where
  buf : Bytes
  element_count : Nat
deriving DecidableEq, Repr

/-- Embeds `SerializedValues::new`. -/
def SerializedValues.new : SerializedValues := ⟨[], 0⟩

/-- Appends one already-serialized value to the buffer, with its 4-byte length
prefix, and bumps the count. This is the writing half of
`SerializedValues::add_value` once the value serializer has produced bytes. -/
def SerializedValues.addSerialized (sv : SerializedValues) (b : Bytes) :
    SerializedValues :=
  ⟨sv.buf ++ encodeBE32 b.length ++ b, sv.element_count + 1⟩

/-- Embeds `SerializedValues::add_value`: serialize the value against the
declared type (which may fail with a Serialization error, here `none`) and
append the result. -/
def SerializedValues.add_value (sv : SerializedValues) (v : Value)
    (t : ColumnType) : Option SerializedValues :=
  (serializeValue v t).map sv.addSerialized

/-- Reads one length-prefixed value off the front of a buffer, returning the
value bytes and the remaining buffer. -/
def readValue (buf : Bytes) : Option (Bytes × Bytes) :=
  match buf with
  | b0 :: b1 :: b2 :: b3 :: rest =>
      let len := ((b0 * 256 + b1) * 256 + b2) * 256 + b3
      if len ≤ rest.length then some (rest.take len, rest.drop len) else none
  | _ => none

/-- Reads `n` length-prefixed values off the front of a buffer. This is the
reading half of the `SerializedValues` iterator used when re-slicing a
serialized buffer. -/
def readValues : Nat → Bytes → Option (List Bytes)
  | 0, _ => some []
  | n + 1, buf =>
      (readValue buf).bind fun p => (readValues n p.2).map (p.1 :: ·)

/-- The length-prefixed concatenation of a list of serialized values: the
buffer contents of a `SerializedValues` built by adding them in order. -/
def encodeValues : List Bytes → Bytes
  | [] => []
  | b :: rest => encodeBE32 b.length ++ b ++ encodeValues rest

/-- Serializes a row of values against a list of declared types, one value per
type, failing (Serialization error) on any type mismatch or arity mismatch.
Modelled from the spec: row serialization via `RowSerializationContext`
serializes each value against the corresponding column spec's type. -/
def serializeRow : List Value → List ColumnType → Option (List Bytes)
  | [], [] => some []
  | v :: vs, t :: ts =>
      (serializeValue v t).bind fun b => (serializeRow vs ts).map (b :: ·)
  | _, _ => none

/-- The `SerializedValues` holding exactly the given components in order. -/
def svOfList (comps : List Bytes) : SerializedValues :=
  ⟨encodeValues comps, comps.length⟩

/-- Modelled from the spec: `SerializedValues::from_serializable(ctx, values)`
serializes the row against the context's column types, adding each value in
order. -/
def SerializedValues.fromSerializable (values : List Value)
    (specs : List ColumnType) : Option SerializedValues :=
  (serializeRow values specs).map svOfList

/-! ## Prepared statements and partition keys -/

/-- Embeds `ColumnSpec`: the name and declared type of one variable column of
a prepared statement. (The table spec is irrelevant to the verified claims.) -/
structure ColumnSpec where
  name : String
  typ : ColumnType
deriving DecidableEq, Repr

/-- Embeds the parts of `PreparedStatement` that the binding subsystem reads:
the ordered variable column specs (`get_variable_col_specs`, whose length also
plays the role of `PreparedMetadata::col_count`), the partition-key indices
relative to the variable columns, and the `is_token_aware` flag. Per the spec,
`is_token_aware` is true iff all partition-key components appear among the
variable columns and the partitioner is known; an unknown partitioner forces
it to `false`. -/
structure PreparedStatement where
  col_specs : List ColumnSpec
  partition_key_indices : List Nat
  is_token_aware : Bool
deriving DecidableEq, Repr

/-- Embeds `BoundStatement`: a prepared statement together with its
`SerializedValues` buffer. -/
structure BoundStatement where
  prepared : PreparedStatement
  values : SerializedValues
deriving DecidableEq, Repr

/-- Embeds `BoundStatement::new_untyped`: constructs a `BoundStatement` from an
arbitrary `SerializedValues` buffer, with no validation whatsoever. -/
def BoundStatement.new_untyped (prepared : PreparedStatement)
    (values : SerializedValues) : BoundStatement :=
  ⟨prepared, values⟩

/-- Modelled from the spec: `PreparedStatement::serialize_values` (the body
lives in `statement/prepared.rs`, not present in the source tree) serializes a
row of values against the variable column specs. `BoundStatement::new_owned`
and `new_borrowed` both delegate to it and wrap the result. -/
def BoundStatement.new_owned (prepared : PreparedStatement)
    (values : List Value) : Option BoundStatement :=
  (SerializedValues.fromSerializable values (prepared.col_specs.map (·.typ))).map
    fun sv => ⟨prepared, sv⟩

/-- The Cassandra composite partition-key hash input: a single component is
hashed as-is; a composite key concatenates `len:u16 ‖ bytes ‖ 0x00` per
component. Modelled from the spec (the `PartitionKey` hashing code lives in
`statement/prepared.rs`, not present in the source tree). -/
def pkHashInput (comps : List Bytes) : Bytes :=
  match comps with
  | [single] => single
  | _ => (comps.map fun b => encodeBE16 b.length ++ b ++ [0]).flatten

/-- Modelled from the spec: `PartitionKey::new` re-slices the serialized
buffer at the prepared metadata's `partition_key_indices` to produce the
ordered list of partition-key component byte strings. Fails (extraction error)
if the buffer cannot be sliced or an index is out of range. -/
def extractPartitionKey (b : BoundStatement) : Option (List Bytes) :=
  (readValues b.values.element_count b.values.buf).bind fun vals =>
    b.prepared.partition_key_indices.mapM fun i => vals.get? i

/-- Embeds `PartitionKeyError`: either partition-key extraction failed or the
token calculation failed. Collapsed to carriers of no data, as the claims only
distinguish error from success. -/
inductive PartitionKeyError where
  | extraction
  | tokenCalculation
deriving DecidableEq, Repr

/-- Embeds `BoundStatement::extract_partition_key_and_calculate_token`. The
token-aware check precedes any partition-key extraction or validation; the
partitioner itself (selected by name in `prepared.rs`) is abstracted as the
`hash` argument mapping partition-key bytes to a token. -/
def BoundStatement.extract_partition_key_and_calculate_token
    (hash : Bytes → Int) (b : BoundStatement) :
    Except PartitionKeyError (Option (List Bytes × Int)) :=
  if !b.prepared.is_token_aware then
    .ok none
  else
    match extractPartitionKey b with
    | none => .error .extraction
    | some pk => .ok (some (pk, hash (pkHashInput pk)))

/-- Embeds `BoundStatement::calculate_token`. -/
def BoundStatement.calculate_token (hash : Bytes → Int) (b : BoundStatement) :
    Except PartitionKeyError (Option Int) :=
  (b.extract_partition_key_and_calculate_token hash).map
    fun p => p.map Prod.snd

/-! ## The appending binder -/

/-- Embeds `AppendingStatementBinderError`. The `Serialization` variant wraps
an opaque `SerializationError` in the source; the payload is dropped here. -/
inductive AppendingStatementBinderError where
  | TooFewValues (required : Nat) (provided : Nat)
  | TooManyValues (required : Nat)
  | Serialization
deriving DecidableEq, Repr

/-- Embeds `AppendingStatementBinder`: the prepared statement plus the values
serialized so far. -/
structure AppendingStatementBinder where
  prepared : PreparedStatement
  values : SerializedValues
deriving DecidableEq, Repr

/-- Embeds `StatementBinder::appending_binder`: starts with an empty
`SerializedValues`. -/
def PreparedStatement.appending_binder (p : PreparedStatement) :
    AppendingStatementBinder :=
  ⟨p, SerializedValues.new⟩

/-- Embeds `AppendingStatementBinder::bind_next_value`: look up the column
spec at the next index (`element_count` so far); if there is none, the value
is one too many and `TooManyValues` is returned before any serialization is
attempted; otherwise serialize the value against the spec's type and append
it. -/
def AppendingStatementBinder.bind_next_value (b : AppendingStatementBinder)
    (v : Value) : Except AppendingStatementBinderError AppendingStatementBinder :=
  let required_values := b.prepared.col_specs.length
  let provided_values := b.values.element_count
  match b.prepared.col_specs.get? provided_values with
  | none => .error (.TooManyValues required_values)
  | some spec =>
      match b.values.add_value v spec.typ with
      | none => .error .Serialization
      | some values => .ok ⟨b.prepared, values⟩

/-- Embeds `AppendingStatementBinder::finish`: succeeds iff the provided value
count equals the required count, else `TooFewValues`. -/
def AppendingStatementBinder.finish (b : AppendingStatementBinder) :
    Except AppendingStatementBinderError BoundStatement :=
  let required_values := b.prepared.col_specs.length
  let provided_values := b.values.element_count
  if required_values = provided_values then
    .ok ⟨b.prepared, b.values⟩
  else
    .error (.TooFewValues required_values provided_values)

/-- Folds `bind_next_value` over a list of values, stopping at the first
error. Used to describe binder states reached by a sequence of successful
`bind_next_value` calls. -/
def AppendingStatementBinder.bindMany (b : AppendingStatementBinder) :
    List Value → Except AppendingStatementBinderError AppendingStatementBinder
  | [] => .ok b
  | v :: vs =>
      match b.bind_next_value v with
      | .error e => .error e
      | .ok b2 => b2.bindMany vs

/-! ## The by-index binder -/

/-- Embeds `ByIndexStatementBinderError`. -/
inductive ByIndexStatementBinderError where
  | NoSuchIndex (idx : Nat)
  | MissingValueAtIndex (idx : Nat)
  | DuplicatedValue (idx : Nat)
  | Serialization
deriving DecidableEq, Repr

/-- Embeds `ByIndexStatementBinder`: a sparse vector of unserialized values,
one slot per variable column. -/
structure ByIndexStatementBinder where
  prepared : PreparedStatement
  values : List (Option Value)
deriving DecidableEq, Repr

/-- Embeds `StatementBinder::by_index_binder`: all `col_count` slots start
empty. -/
def PreparedStatement.by_index_binder (p : PreparedStatement) :
    ByIndexStatementBinder :=
  ⟨p, List.replicate p.col_specs.length none⟩

/-- Embeds `ByIndexStatementBinder::bind_value_by_index`: out-of-bounds index
gives `NoSuchIndex`, an already-filled slot gives `DuplicatedValue`, otherwise
the value is stored unserialized. -/
def ByIndexStatementBinder.bind_value_by_index (b : ByIndexStatementBinder)
    (index : Nat) (v : Value) :
    Except ByIndexStatementBinderError ByIndexStatementBinder :=
  match b.values.get? index with
  | none => .error (.NoSuchIndex index)
  | some (some _) => .error (.DuplicatedValue index)
  | some none => .ok ⟨b.prepared, b.values.set index (some v)⟩

/-- The serialization loop of `ByIndexStatementBinder::finish`: walk the
zipped (slot, spec) list with its running index, failing with
`MissingValueAtIndex` at the first empty slot and with `Serialization` at the
first value that does not serialize against its spec's type. -/
def serializeSlotsByIndex :
    Nat → List (Option Value × ColumnSpec) → SerializedValues →
    Except ByIndexStatementBinderError SerializedValues
  | _, [], acc => .ok acc
  | idx, (none, _) :: _, _ => .error (.MissingValueAtIndex idx)
  | idx, (some v, spec) :: rest, acc =>
      match serializeValue v spec.typ with
      | none => .error .Serialization
      | some bs => serializeSlotsByIndex (idx + 1) rest (acc.addSerialized bs)

/-- Embeds `ByIndexStatementBinder::finish`: serializes the slots in declared
order into a fresh `SerializedValues` and wraps the result. -/
def ByIndexStatementBinder.finish (b : ByIndexStatementBinder) :
    Except ByIndexStatementBinderError BoundStatement :=
  (serializeSlotsByIndex 0 (b.values.zip b.prepared.col_specs)
      SerializedValues.new).map
    fun sv => ⟨b.prepared, sv⟩

/-! ## The by-name binder -/

/-- Embeds `ByNameStatementBinderError`. -/
inductive ByNameStatementBinderError where
  | NoSuchName (name : String)
  | MissingValueForParameter (name : String)
  | DuplicatedValue (name : String)
  | Serialization
deriving DecidableEq, Repr

/-- Embeds `ByNameStatementBinder`: a sparse vector of unserialized values,
one slot per variable column, addressed by column name. -/
structure ByNameStatementBinder where
  prepared : PreparedStatement
  values : List (Option Value)
deriving DecidableEq, Repr

/-- Embeds `StatementBinder::by_name_binder`: all `col_count` slots start
empty. -/
def PreparedStatement.by_name_binder (p : PreparedStatement) :
    ByNameStatementBinder :=
  ⟨p, List.replicate p.col_specs.length none⟩

/-- The lookup-and-store loop of `ByNameStatementBinder::bind_value_by_name`:
walk slots and specs in parallel (the source zips the two iterators), find the
first spec whose name matches, and fill its slot. An already-filled slot gives
`DuplicatedValue`; running out of columns gives `NoSuchName`. -/
def bindSlotByName (name : String) (v : Value) :
    List (Option Value) → List ColumnSpec →
    Except ByNameStatementBinderError (List (Option Value))
  | _, [] => .error (.NoSuchName name)
  | [], _ => .error (.NoSuchName name)
  | slot :: slots, spec :: specs =>
      if spec.name = name then
        match slot with
        | some _ => .error (.DuplicatedValue name)
        | none => .ok (some v :: slots)
      else
        (bindSlotByName name v slots specs).map (slot :: ·)

/-- Embeds `ByNameStatementBinder::bind_value_by_name`. -/
def ByNameStatementBinder.bind_value_by_name (b : ByNameStatementBinder)
    (name : String) (v : Value) :
    Except ByNameStatementBinderError ByNameStatementBinder :=
  (bindSlotByName name v b.values b.prepared.col_specs).map
    fun values => ⟨b.prepared, values⟩

/-- The serialization loop of `ByNameStatementBinder::finish`: like the
by-index loop, but the first empty slot is reported by its column's name. -/
def serializeSlotsByName :
    List (Option Value × ColumnSpec) → SerializedValues →
    Except ByNameStatementBinderError SerializedValues
  | [], acc => .ok acc
  | (none, spec) :: _, _ => .error (.MissingValueForParameter spec.name)
  | (some v, spec) :: rest, acc =>
      match serializeValue v spec.typ with
      | none => .error .Serialization
      | some bs => serializeSlotsByName rest (acc.addSerialized bs)

/-- Embeds `ByNameStatementBinder::finish`. -/
def ByNameStatementBinder.finish (b : ByNameStatementBinder) :
    Except ByNameStatementBinderError BoundStatement :=
  (serializeSlotsByName (b.values.zip b.prepared.col_specs)
      SerializedValues.new).map
    fun sv => ⟨b.prepared, sv⟩

/-! ## ClusterState token computation -/

/-- Embeds `ClusterStateTokenError`, the error type of
`ClusterState::compute_token{,_preserialized}` (variants as observed in the
integration test's match arms and the spec's error taxonomy). -/
inductive ClusterStateTokenError where
  | UnknownTable (keyspace table : String)
  | PartitionKeyCountMismatch (keyspace table : String)
      (received expected : Nat)
  | Serialization
  | MalformedSerializedValues (keyspace table : String)
deriving DecidableEq, Repr

/-- The table metadata `ClusterState` needs for token computation: the
declared types of the partition-key columns, in declared order. -/
structure TableTokenMeta where
  pkSpecs : List ColumnType
deriving DecidableEq, Repr

/-- The keyspaces/tables portion of the cluster-state snapshot, keyed by
`(keyspace, table)` name. -/
structure ClusterState where
  tables : List ((String × String) × TableTokenMeta)
deriving DecidableEq, Repr

/-- Looks up the partition-key column types of `(ks, table)` in the
snapshot. -/
def ClusterState.lookupTable (cs : ClusterState) (ks table : String) :
    Option (List ColumnType) :=
  (cs.tables.find? fun p => p.1 = (ks, table)).map fun p => p.2.pkSpecs

/-- Modelled from the spec: `ClusterState::compute_token_preserialized(ks,
table, sv)` (the body is not present in the source tree; only its integration
test is). It validates `sv.count == |partition_key_columns(table)|`, returning
`PartitionKeyCountMismatch(received, expected)` on mismatch, and otherwise
re-slices the buffer into the partition-key components and hashes them in the
composite format. The partitioner is abstracted as the `hash` argument. -/
def ClusterState.compute_token_preserialized (hash : Bytes → Int)
    (cs : ClusterState) (ks table : String) (sv : SerializedValues) :
    Except ClusterStateTokenError Int :=
  match cs.lookupTable ks table with
  | none => .error (.UnknownTable ks table)
  | some pkSpecs =>
      if sv.element_count = pkSpecs.length then
        match readValues sv.element_count sv.buf with
        | none => .error (.MalformedSerializedValues ks table)
        | some comps => .ok (hash (pkHashInput comps))
      else
        .error (.PartitionKeyCountMismatch ks table sv.element_count
          pkSpecs.length)

/-- Modelled from the spec: `ClusterState::compute_token(ks, table, values)`
(the body is not present in the source tree) serializes the value tuple
against the table's partition-key column specs and hashes the resulting
components in the composite format. The partitioner is abstracted as the
`hash` argument. -/
def ClusterState.compute_token (hash : Bytes → Int) (cs : ClusterState)
    (ks table : String) (values : List Value) :
    Except ClusterStateTokenError Int :=
  match cs.lookupTable ks table with
  | none => .error (.UnknownTable ks table)
  | some pkSpecs =>
      match serializeRow values pkSpecs with
      | none => .error .Serialization
      | some comps => .ok (hash (pkHashInput comps))

/-! ## Load-balancing policy wrappers -/

/-- Embeds the `LoadBalancingPolicy` trait surface relevant to routing:
`pick` returns the primary `(node, Option shard)` attempt, `fallback` the
sequence of further attempts. Routing info, cluster data, nodes and shards are
type parameters, as the wrapper is generic over them. -/
structure LoadBalancingPolicy (RoutingInfo ClusterData Node Shard : Type) where
  pick : RoutingInfo → ClusterData → Option (Node × Option Shard)
  fallback : RoutingInfo → ClusterData → List (Node × Option Shard)

/-- Embeds `NonShardAwareLB` from `examples/benchmark.rs`: a wrapper that
delegates to the inner policy and replaces the shard component of every
attempt with `none`, forcing non-shard-aware routing. -/
def NonShardAwareLB {RoutingInfo ClusterData Node Shard : Type}
    (inner : LoadBalancingPolicy RoutingInfo ClusterData Node Shard) :
    LoadBalancingPolicy RoutingInfo ClusterData Node Shard where
  pick q c := (inner.pick q c).map fun p => (p.1, none)
  fallback q c := (inner.fallback q c).map fun p => (p.1, none)

/-! ## Cloud TLS configuration -/

/-- Embeds the datacenter entry of `CloudConfig` at the interface
`make_tls_config_for_scylla_cloud_host` reads: node domain for SNI and the
TLS-verification switch. The certificate material is abstracted as an opaque
tag, since the TLS stack is an external collaborator. -/
structure CloudDatacenter where
  node_domain : String
  insecure_skip_tls_verify : Bool
  ca : Nat
deriving DecidableEq, Repr

/-- Embeds `CloudConfig` at the interface the TLS-config function reads:
the datacenters map and the current auth info (abstracted to its key/cert
material tag). -/
structure CloudConfig where
  datacenters : List (String × CloudDatacenter)
  current_auth_info : Nat
deriving DecidableEq, Repr

/-- Looks a datacenter up by name, as `cloud_config.get_datacenters().get(dc)`
does. -/
def CloudConfig.getDatacenter (cfg : CloudConfig) (dc : String) :
    Option CloudDatacenter :=
  (cfg.datacenters.find? fun p => p.1 = dc).map fun p => p.2

/-- Embeds `TlsConfig::new_for_sni`: the TLS context (abstracted to the
material it was built from), the SNI domain name, and the host id. -/
structure TlsConfig where
  verify_peer : Bool
  ca : Nat
  auth_info : Nat
  sni_domain : String
  host_id : Option Nat
deriving DecidableEq, Repr

/-- Embeds the error type of `make_tls_config_for_scylla_cloud_host`. The
openssl builder calls can fail in the source; no claim depends on those
failure paths, and the context construction is modelled as total, so this
type is uninhabited here. -/
inductive TlsError where
deriving DecidableEq

/-- The warning message logged when a node's datacenter is not described in
the cloud config (the source formats the dc, host id and address into it;
the constant body stands for that message). -/
def dcNotDescribedWarning : String :=
  "Datacenter of node not described in cloud config. Proceeding without setting SNI for the node, which will most probably result in nonworking connections."

/-- Embeds `make_tls_config_for_scylla_cloud_host`. The list component of the
result collects the warnings the function logs, so that the logging behaviour
is part of the embedding: if the node's datacenter is absent from the cloud
config (or the node reports no datacenter), the function warns and returns
`Ok(None)`; otherwise it builds a TLS context from the datacenter's CA and the
current auth info and returns an SNI config for the datacenter's node
domain. -/
def make_tls_config_for_scylla_cloud_host (host_id : Option Nat)
    (dc : Option String) (cloud_config : CloudConfig) :
    List String × Except TlsError (Option TlsConfig) :=
  match dc.bind cloud_config.getDatacenter with
  | none => ([dcNotDescribedWarning], .ok none)
  | some datacenter =>
      ([], .ok (some
        { verify_peer := !datacenter.insecure_skip_tls_verify
          ca := datacenter.ca
          auth_info := cloud_config.current_auth_info
          sni_domain := datacenter.node_domain
          host_id := host_id }))

/-! ## Concrete instances for evaluating the development -/

/-- A concrete partitioner stand-in used to instantiate the abstract hash
argument when evaluating the development on concrete inputs. -/
def witnessHash : Bytes → Int := fun b => (b.length : Int)

/-- A concrete cluster-state snapshot: `t1` with a single-column partition
key, `complex_pk` with a three-column composite key, and `t2` with a
two-column key (mirroring the integration tests). -/
def witnessClusterState : ClusterState :=
  ⟨[(("ks", "t1"), ⟨[ColumnType.int]⟩),
    (("ks", "complex_pk"), ⟨[ColumnType.int, ColumnType.int, ColumnType.int]⟩),
    (("ks", "t2"), ⟨[ColumnType.int, ColumnType.int]⟩)]⟩

/-- A concrete prepared statement with one text variable column, mirroring
`SELECT host_id FROM system.local WHERE key=?` from the binder integration
test. -/
def witnessPrepared : PreparedStatement :=
  ⟨[⟨"key", ColumnType.text⟩], [0], true⟩

/-! ## Helper lemmas: the serialization roundtrip -/

/-- Decoding the four big-endian bytes of `encodeBE32 n` recovers `n` when it
fits in 32 bits. -/
lemma decode_encodeBE32 (n : Nat) (h : n < 2 ^ 32) :
    (((n / 2 ^ 24 % 256) * 256 + n / 2 ^ 16 % 256) * 256 + n / 2 ^ 8 % 256)
        * 256 + n % 256 = n := by
  omega

/-- Reading one value off a buffer that starts with a length-prefixed value
recovers that value and the rest of the buffer. -/
lemma readValue_encode (b rest : Bytes) (h : b.length < 2 ^ 32) :
    readValue (encodeBE32 b.length ++ b ++ rest) = some (b, rest) := by
  simp only [readValue, encodeBE32, List.cons_append, List.nil_append]
  rw [decode_encodeBE32 b.length h]
  rw [if_pos (by simp)]
  rw [List.take_left, List.drop_left]

/-- Reading back as many values as were encoded recovers the encoded list, as
long as each value fits the 32-bit length prefix. -/
lemma readValues_encodeValues (comps : List Bytes)
    (h : ∀ b ∈ comps, b.length < 2 ^ 32) :
    readValues comps.length (encodeValues comps) = some comps := by
  induction comps with
  | nil => rfl
  | cons b rest ih =>
      have hb : b.length < 2 ^ 32 := h b (by simp)
      have hrest : ∀ x ∈ rest, x.length < 2 ^ 32 := fun x hx => h x (by simp [hx])
      simp only [List.length_cons, readValues, encodeValues]
      rw [show encodeBE32 b.length ++ b ++ encodeValues rest
            = encodeBE32 b.length ++ b ++ encodeValues rest from rfl]
      rw [readValue_encode b (encodeValues rest) hb]
      simp [ih hrest]

/-- A successfully serialized value fits the 32-bit length prefix. -/
lemma serializeValue_length_lt {v : Value} {t : ColumnType} {b : Bytes}
    (h : serializeValue v t = some b) : b.length < 2 ^ 32 := by
  cases v with
  | int n =>
      cases t with
      | int =>
          simp only [serializeValue, Option.some.injEq] at h
          subst h
          simp [encodeBE32]
      | text => simp [serializeValue] at h
  | text s =>
      cases t with
      | int => simp [serializeValue] at h
      | text =>
          simp only [serializeValue] at h
          split at h
          · cases h
            simpa using ‹s.length < 2 ^ 32›
          · cases h

/-- A successfully serialized row has one component per column type, and every
component fits the 32-bit length prefix. -/
lemma serializeRow_spec {values : List Value} {specs : List ColumnType}
    {comps : List Bytes} (h : serializeRow values specs = some comps) :
    comps.length = specs.length ∧ ∀ b ∈ comps, b.length < 2 ^ 32 := by
  induction values generalizing specs comps with
  | nil =>
      cases specs with
      | nil =>
          simp only [serializeRow, Option.some.injEq] at h
          subst h
          simp
      | cons t ts => simp [serializeRow] at h
  | cons v vs ih =>
      cases specs with
      | nil => simp [serializeRow] at h
      | cons t ts =>
          simp only [serializeRow, Option.bind_eq_bind, Option.bind_eq_some,
            Option.map_eq_some'] at h
          obtain ⟨b, hb, cs, hcs, rfl⟩ := h
          obtain ⟨hlen, hbound⟩ := ih hcs
          refine ⟨by simp [hlen], ?_⟩
          intro x hx
          rcases List.mem_cons.mp hx with rfl | hx
          · exact serializeValue_length_lt hb
          · exact hbound x hx

/-- C1: if `sv` is the `SerializedValues` produced by serializing `values`
against the table's partition-key column specs, then
`ClusterState::compute_token_preserialized(ks, table, sv)` returns the same
token as `ClusterState::compute_token(ks, table, values)` — for any
partitioner hash, hence for single-component and composite partition keys
alike. -/
theorem compute_token_preserialized_eq_compute_token
    (hash : Bytes → Int) (cs : ClusterState) (ks table : String)
    (values : List Value) (pkSpecs : List ColumnType) (sv : SerializedValues)
    (hlookup : cs.lookupTable ks table = some pkSpecs)
    (hsv : SerializedValues.fromSerializable values pkSpecs = some sv) :
    cs.compute_token_preserialized hash ks table sv
      = cs.compute_token hash ks table values := by
  simp only [SerializedValues.fromSerializable, Option.map_eq_some'] at hsv
  obtain ⟨comps, hrow, rfl⟩ := hsv
  obtain ⟨hlen, hbound⟩ := serializeRow_spec hrow
  unfold ClusterState.compute_token_preserialized ClusterState.compute_token
  simp only [hlookup, hrow, svOfList]
  rw [if_pos hlen, readValues_encodeValues comps hbound]

/-- Witness for C1: on the concrete snapshot, the pre-serialized token equals
the directly computed token both for the single-column key of `t1` and for
the composite key of `complex_pk`. -/
theorem compute_token_preserialized_eq_compute_token_witness :
    witnessClusterState.compute_token_preserialized witnessHash "ks" "t1"
        (svOfList [encodeBE32 17])
      = witnessClusterState.compute_token witnessHash "ks" "t1" [.int 17]
  ∧ witnessClusterState.compute_token_preserialized witnessHash "ks"
        "complex_pk" (svOfList [encodeBE32 17, encodeBE32 16, encodeBE32 7])
      = witnessClusterState.compute_token witnessHash "ks" "complex_pk"
          [.int 17, .int 16, .int 7] :=
  ⟨compute_token_preserialized_eq_compute_token witnessHash witnessClusterState
      "ks" "t1" [.int 17] [ColumnType.int] _ (by decide) (by decide),
   compute_token_preserialized_eq_compute_token witnessHash witnessClusterState
      "ks" "complex_pk" [.int 17, .int 16, .int 7]
      [ColumnType.int, ColumnType.int, ColumnType.int] _ (by decide) (by decide)⟩

/-- C5: for every `BoundStatement` whose prepared statement is not
token-aware, `calculate_token` returns `Ok(None)` regardless of the bound
values (the token-aware check precedes any partition-key extraction or
validation) and for every partitioner hash. -/
theorem calculate_token_not_token_aware (hash : Bytes → Int)
    (b : BoundStatement) (h : b.prepared.is_token_aware = false) :
    b.calculate_token hash = .ok none := by
  unfold BoundStatement.calculate_token
    BoundStatement.extract_partition_key_and_calculate_token
  rw [h]
  rfl

/-- Witness for C5: a concrete non-token-aware bound statement whose values
buffer is arbitrary garbage (three stray bytes claiming five values) still
gets `Ok(None)`. -/
theorem calculate_token_not_token_aware_witness :
    BoundStatement.calculate_token witnessHash
      ⟨⟨[⟨"a", ColumnType.int⟩], [0], false⟩, ⟨[1, 2, 3], 5⟩⟩ = .ok none :=
  calculate_token_not_token_aware witnessHash
    ⟨⟨[⟨"a", ColumnType.int⟩], [0], false⟩, ⟨[1, 2, 3], 5⟩⟩ (by decide)

/-- C8: the `NonShardAwareLB` wrapper changes only the shard component of
routing decisions: for every routing info and cluster state, the node of its
`pick` and the node sequence of its `fallback` equal those of the wrapped
policy. -/
theorem non_shard_aware_lb_preserves_node_choice
    {RoutingInfo ClusterData Node Shard : Type}
    (inner : LoadBalancingPolicy RoutingInfo ClusterData Node Shard)
    (q : RoutingInfo) (c : ClusterData) :
    ((NonShardAwareLB inner).pick q c).map Prod.fst
        = (inner.pick q c).map Prod.fst
  ∧ ((NonShardAwareLB inner).fallback q c).map Prod.fst
        = (inner.fallback q c).map Prod.fst := by
  constructor
  · cases h : inner.pick q c <;> simp [NonShardAwareLB, h]
  · simp only [NonShardAwareLB, List.map_map]
    congr 1

/-- C9: when the node's datacenter is absent from the cloud config (or the
node reports no datacenter), `make_tls_config_for_scylla_cloud_host` logs the
warning and returns `Ok(None)` instead of an error. -/
theorem cloud_tls_missing_dc_warns_and_ok_none (host_id : Option Nat)
    (dc : Option String) (cfg : CloudConfig)
    (h : dc.bind cfg.getDatacenter = none) :
    make_tls_config_for_scylla_cloud_host host_id dc cfg
      = ([dcNotDescribedWarning], .ok none) := by
  unfold make_tls_config_for_scylla_cloud_host
  rw [h]

/-- Witness for C9: a node in datacenter `dc1` against a cloud config
describing only `dc0` gets the warning and `Ok(None)`. -/
theorem cloud_tls_missing_dc_warns_and_ok_none_witness :
    make_tls_config_for_scylla_cloud_host (some 7) (some "dc1")
        ⟨[("dc0", ⟨"node.domain", false, 0⟩)], 0⟩
      = ([dcNotDescribedWarning], .ok none) :=
  cloud_tls_missing_dc_warns_and_ok_none (some 7) (some "dc1")
    ⟨[("dc0", ⟨"node.domain", false, 0⟩)], 0⟩ (by decide)

/-! ## The appending binder: helper lemmas and C2 -/

/-- Unfolds `finish` to its if-then-else normal form. -/
lemma finish_eq (b : AppendingStatementBinder) :
    b.finish
      = if b.prepared.col_specs.length = b.values.element_count then
          .ok ⟨b.prepared, b.values⟩
        else
          .error (.TooFewValues b.prepared.col_specs.length
            b.values.element_count) := rfl

/-- When the column-spec lookup at the next index fails, `bind_next_value`
returns `TooManyValues` for every value, serializable or not. -/
lemma bind_next_value_too_many {b : AppendingStatementBinder} {v : Value}
    (h : b.prepared.col_specs.get? b.values.element_count = none) :
    b.bind_next_value v
      = .error (.TooManyValues b.prepared.col_specs.length) := by
  simp only [AppendingStatementBinder.bind_next_value, h]

/-- A successful `bind_next_value` keeps the prepared statement, increments
the value count by one, and can only happen while the count is below the
column count. -/
lemma bind_next_value_ok {b b2 : AppendingStatementBinder} {v : Value}
    (h : b.bind_next_value v = .ok b2) :
    b2.prepared = b.prepared
      ∧ b2.values.element_count = b.values.element_count + 1
      ∧ b.values.element_count < b.prepared.col_specs.length := by
  simp only [AppendingStatementBinder.bind_next_value] at h
  split at h
  · cases h
  · rename_i spec hg
    split at h
    · cases h
    · rename_i values ha
      cases h
      have hlt : b.values.element_count < b.prepared.col_specs.length := by
        by_contra hge
        rw [List.get?_eq_none.mpr (by omega)] at hg
        cases hg
      refine ⟨rfl, ?_, hlt⟩
      simp only [SerializedValues.add_value, Option.map_eq_some'] at ha
      obtain ⟨bs, _, rfl⟩ := ha
      rfl

/-- A successful run of `bindMany` keeps the prepared statement, adds one to
the count per value bound, and leaves the count at or below the column count
(unless no value was bound at all). -/
lemma bindMany_ok {b b2 : AppendingStatementBinder} {vs : List Value}
    (h : b.bindMany vs = .ok b2) :
    b2.prepared = b.prepared
      ∧ b2.values.element_count = b.values.element_count + vs.length
      ∧ (vs = [] ∨ b2.values.element_count ≤ b.prepared.col_specs.length) := by
  induction vs generalizing b with
  | nil =>
      simp only [AppendingStatementBinder.bindMany] at h
      cases h
      exact ⟨rfl, rfl, Or.inl rfl⟩
  | cons v rest ih =>
      simp only [AppendingStatementBinder.bindMany] at h
      split at h
      · cases h
      · rename_i b1 hb
        obtain ⟨hp1, hc1, hlt1⟩ := bind_next_value_ok hb
        obtain ⟨hp2, hc2, hrest⟩ := ih h
        refine ⟨hp2.trans hp1, ?_, Or.inr ?_⟩
        · simp only [List.length_cons]
          omega
        · rcases hrest with rfl | hle
          · simp only [List.length_nil, Nat.add_zero] at hc2
            omega
          · rw [hp1] at hle
            exact hle

/-- C2: over a prepared statement with `m` variable columns, a fresh appending
binder that has accepted exactly the `n` values of `vs`:
`finish` returns `TooFewValues(required = m, provided = n)` iff `n < m`, and
returns a `BoundStatement` when `n = m`; offering an `(m+1)`-th value makes
`bind_next_value` return `TooManyValues(required = m)` for every value — in
particular for values that do not serialize, since the column-spec lookup
fails before any serialization is attempted. -/
theorem appending_binder_finish_and_too_many (p : PreparedStatement)
    (vs : List Value) (b : AppendingStatementBinder)
    (h : (p.appending_binder).bindMany vs = .ok b) :
    (b.finish
        = .error (.TooFewValues p.col_specs.length vs.length)
      ↔ vs.length < p.col_specs.length)
  ∧ (vs.length = p.col_specs.length → b.finish = .ok ⟨p, b.values⟩)
  ∧ (∀ v, vs.length = p.col_specs.length →
        b.bind_next_value v = .error (.TooManyValues p.col_specs.length)) := by
  obtain ⟨hp, hc, hle⟩ := bindMany_ok h
  simp only [PreparedStatement.appending_binder, SerializedValues.new]
    at hp hc hle
  have hcount : b.values.element_count = vs.length := by simpa using hc
  have hvs_le : vs.length ≤ p.col_specs.length := by
    rcases hle with rfl | hle
    · simp
    · omega
  refine ⟨?_, ?_, ?_⟩
  · rw [finish_eq, hp, hcount]
    constructor
    · intro hfin
      by_contra hge
      rw [if_pos (by omega)] at hfin
      cases hfin
    · intro hlt
      rw [if_neg (by omega)]
  · intro heq
    rw [finish_eq, hp, hcount, if_pos heq.symm]
  · intro v heq
    have hnone : b.prepared.col_specs.get? b.values.element_count = none := by
      rw [hp, hcount, heq]
      exact List.get?_eq_none.mpr le_rfl
    rw [bind_next_value_too_many hnone, hp]

/-- Witness for C2: against the one-column prepared statement, finishing with
zero values yields `TooFewValues(1, 0)`; after binding one value ("local",
whose serialization is the concrete buffer below), finishing succeeds, and a
second `bind_next_value` — of an ill-typed value, no less — yields
`TooManyValues(1)`. -/
theorem appending_binder_finish_and_too_many_witness :
    (witnessPrepared.appending_binder).finish
        = .error (.TooFewValues 1 0)
  ∧ (⟨witnessPrepared, ⟨[0, 0, 0, 5, 108, 111, 99, 97, 108], 1⟩⟩
        : AppendingStatementBinder).finish
      = .ok ⟨witnessPrepared, ⟨[0, 0, 0, 5, 108, 111, 99, 97, 108], 1⟩⟩
  ∧ (⟨witnessPrepared, ⟨[0, 0, 0, 5, 108, 111, 99, 97, 108], 1⟩⟩
        : AppendingStatementBinder).bind_next_value (.int 42)
      = .error (.TooManyValues 1) :=
  ⟨((appending_binder_finish_and_too_many witnessPrepared []
        witnessPrepared.appending_binder rfl).1).mpr (by decide),
   (appending_binder_finish_and_too_many witnessPrepared [Value.text "local"]
        ⟨witnessPrepared, ⟨[0, 0, 0, 5, 108, 111, 99, 97, 108], 1⟩⟩ rfl).2.1
      (by decide),
   (appending_binder_finish_and_too_many witnessPrepared [Value.text "local"]
        ⟨witnessPrepared, ⟨[0, 0, 0, 5, 108, 111, 99, 97, 108], 1⟩⟩ rfl).2.2
      (.int 42) (by decide)⟩

/-! ## The by-index binder: helper lemmas and C3 -/

/-- If the by-index serialization loop reports a missing value at `i`, then
the slot at relative position `i - k` is empty and every slot before it is
filled. -/
lemma serializeSlotsByIndex_missing {l : List (Option Value × ColumnSpec)}
    {k i : Nat} {acc : SerializedValues}
    (h : serializeSlotsByIndex k l acc = .error (.MissingValueAtIndex i)) :
    k ≤ i ∧ (l.get? (i - k)).map Prod.fst = some none
      ∧ ∀ j < i - k, (l.get? j).map Prod.fst ≠ some none := by
  induction l generalizing k acc with
  | nil => cases h
  | cons p rest ih =>
      rcases p with ⟨slot, spec⟩
      rcases slot with _ | v
      · simp only [serializeSlotsByIndex] at h
        cases h
        refine ⟨le_rfl, by simp, ?_⟩
        intro j hj
        exact absurd hj (by omega)
      · simp only [serializeSlotsByIndex] at h
        split at h
        · cases h
        · obtain ⟨hki, hgap, hearlier⟩ := ih h
          refine ⟨by omega, ?_, ?_⟩
          · have hik : i - k = (i - (k + 1)) + 1 := by omega
            rw [hik]
            simpa using hgap
          · intro j hj
            cases j with
            | zero => simp
            | succ j' =>
                have hj' : j' < i - (k + 1) := by omega
                simpa using hearlier j' hj'

/-- If slot `j` is the first empty slot and every earlier slot holds a value
that serializes against its column's type, the by-index serialization loop
reports a missing value at absolute index `k + j`. -/
lemma serializeSlotsByIndex_missing_of_first_gap
    {l : List (Option Value × ColumnSpec)} {k j : Nat} {acc : SerializedValues}
    (hgap : (l.get? j).map Prod.fst = some none)
    (hearlier : ∀ j' < j, ∃ v spec, l.get? j' = some (some v, spec)
      ∧ (serializeValue v spec.typ).isSome) :
    serializeSlotsByIndex k l acc = .error (.MissingValueAtIndex (k + j)) := by
  induction l generalizing k j acc with
  | nil => simp [List.get?] at hgap
  | cons p rest ih =>
      rcases p with ⟨slot, spec⟩
      cases j with
      | zero =>
          have hslot : slot = none := by simpa [List.get?] using hgap
          subst hslot
          simp [serializeSlotsByIndex]
      | succ j' =>
          obtain ⟨v, spec', hv, hser⟩ := hearlier 0 (Nat.succ_pos j')
          simp only [List.get?, Option.some_inj, Prod.mk.injEq] at hv
          obtain ⟨rfl, rfl⟩ := hv
          obtain ⟨bs, hbs⟩ := Option.isSome_iff_exists.mp hser
          simp only [serializeSlotsByIndex, hbs]
          have hadd : k + (j' + 1) = (k + 1) + j' := by omega
          rw [hadd]
          refine ih (by simpa [List.get?] using hgap) ?_
          intro i hi
          have := hearlier (i + 1) (by omega)
          simpa [List.get?] using this

/-- If slot `j` holds the first problem — a value that does not serialize —
and every earlier slot holds a serializable value, the by-index serialization
loop reports a `Serialization` error. -/
lemma serializeSlotsByIndex_serialization_of_first_bad
    {l : List (Option Value × ColumnSpec)} {k j : Nat} {acc : SerializedValues}
    (hbad : ∃ v spec, l.get? j = some (some v, spec)
      ∧ serializeValue v spec.typ = none)
    (hearlier : ∀ j' < j, ∃ v spec, l.get? j' = some (some v, spec)
      ∧ (serializeValue v spec.typ).isSome) :
    serializeSlotsByIndex k l acc = .error .Serialization := by
  induction l generalizing k j acc with
  | nil =>
      obtain ⟨v, spec, hv, -⟩ := hbad
      simp [List.get?] at hv
  | cons p rest ih =>
      rcases p with ⟨slot, spec⟩
      cases j with
      | zero =>
          obtain ⟨v, spec', hv, hser⟩ := hbad
          simp only [List.get?, Option.some_inj, Prod.mk.injEq] at hv
          obtain ⟨rfl, rfl⟩ := hv
          simp [serializeSlotsByIndex, hser]
      | succ j' =>
          obtain ⟨v, spec', hv, hser⟩ := hearlier 0 (Nat.succ_pos j')
          simp only [List.get?, Option.some_inj, Prod.mk.injEq] at hv
          obtain ⟨rfl, rfl⟩ := hv
          obtain ⟨bs, hbs⟩ := Option.isSome_iff_exists.mp hser
          simp only [serializeSlotsByIndex, hbs]
          refine ih (j := j') ?_ ?_
          · obtain ⟨v', spec'', hv', hbad'⟩ := hbad
            exact ⟨v', spec'', by simpa [List.get?] using hv', hbad'⟩
          · intro i hi
            have := hearlier (i + 1) (by omega)
            simpa [List.get?] using this

/-- A successful run of the by-index serialization loop appends exactly one
serialized value per slot. -/
lemma serializeSlotsByIndex_ok {l : List (Option Value × ColumnSpec)}
    {k : Nat} {acc sv : SerializedValues}
    (h : serializeSlotsByIndex k l acc = .ok sv) :
    sv.element_count = acc.element_count + l.length := by
  induction l generalizing k acc with
  | nil =>
      cases h
      simp
  | cons p rest ih =>
      rcases p with ⟨slot, spec⟩
      rcases slot with _ | v
      · cases h
      · simp only [serializeSlotsByIndex] at h
        split at h
        · cases h
        · have := ih h
          simp only [SerializedValues.addSerialized] at this
          simp only [List.length_cons]
          omega

/-- The by-index `finish` fails with an error exactly when its serialization
loop does. -/
lemma byIndexFinish_error_iff {b : ByIndexStatementBinder}
    {e : ByIndexStatementBinderError} :
    b.finish = .error e
      ↔ serializeSlotsByIndex 0 (b.values.zip b.prepared.col_specs)
          SerializedValues.new = .error e := by
  unfold ByIndexStatementBinder.finish
  cases hs : serializeSlotsByIndex 0 (b.values.zip b.prepared.col_specs)
      SerializedValues.new <;>
    simp [Except.map]

/-- C3: over a prepared statement with `m` variable columns (the binder's
slot vector has length `m`): `bind_value_by_index(idx, v)` returns
`NoSuchIndex(idx)` whenever `idx ≥ m` and `DuplicatedValue(idx)` whenever slot
`idx` is already bound; whenever `finish` returns `MissingValueAtIndex(idx)`,
`idx` is the first (smallest) index with no bound value, and conversely
`finish` does return `MissingValueAtIndex` at the first gap provided the
values before the gap serialize against their columns' types. -/
theorem by_index_binder_errors (b : ByIndexStatementBinder)
    (hwf : b.values.length = b.prepared.col_specs.length) :
    (∀ idx v, b.prepared.col_specs.length ≤ idx →
        b.bind_value_by_index idx v = .error (.NoSuchIndex idx))
  ∧ (∀ idx v w, b.values.get? idx = some (some w) →
        b.bind_value_by_index idx v = .error (.DuplicatedValue idx))
  ∧ (∀ idx, b.finish = .error (.MissingValueAtIndex idx) →
        b.values.get? idx = some none ∧ ∀ j < idx, b.values.get? j ≠ some none)
  ∧ (∀ idx, b.values.get? idx = some none →
        (∀ j < idx, ∃ v spec, b.values.get? j = some (some v)
          ∧ b.prepared.col_specs.get? j = some spec
          ∧ (serializeValue v spec.typ).isSome) →
        b.finish = .error (.MissingValueAtIndex idx)) := by
  refine ⟨?_, ?_, ?_, ?_⟩
  · intro idx v hge
    have hnone : b.values.get? idx = none := List.get?_eq_none.mpr (by omega)
    simp only [ByIndexStatementBinder.bind_value_by_index, hnone]
  · intro idx v w hdup
    simp only [ByIndexStatementBinder.bind_value_by_index, hdup]
  · intro idx hfin
    have hinner := byIndexFinish_error_iff.mp hfin
    obtain ⟨-, hgap, hearlier⟩ := serializeSlotsByIndex_missing hinner
    simp only [Nat.sub_zero] at hgap hearlier
    have hlt : idx < (b.values.zip b.prepared.col_specs).length := by
      by_contra hge
      rw [List.get?_eq_none.mpr (by omega)] at hgap
      simp at hgap
    rw [List.length_zip, hwf, Nat.min_self] at hlt
    constructor
    · obtain ⟨pair, hpair, hfst⟩ := Option.map_eq_some'.mp hgap
      obtain ⟨h1, h2⟩ := (List.get?_zip_eq_some _ _ _ _).mp hpair
      rw [h1, hfst]
    · intro j hj hcontra
      have hjlen : j < b.prepared.col_specs.length := by omega
      have hspec := List.get?_eq_get hjlen
      have hzip : (b.values.zip b.prepared.col_specs).get? j
          = some (none, b.prepared.col_specs.get ⟨j, hjlen⟩) :=
        (List.get?_zip_eq_some _ _ _ _).mpr ⟨hcontra, hspec⟩
      exact hearlier j hj (by rw [hzip]; rfl)
  · intro idx hgap hearlier
    have hidx : idx < b.values.length := (List.get?_eq_some.mp hgap).1
    have hzipgap : ((b.values.zip b.prepared.col_specs).get? idx).map Prod.fst
        = some none := by
      have hcl : idx < b.prepared.col_specs.length := by omega
      have hspec := List.get?_eq_get hcl
      have hzip : (b.values.zip b.prepared.col_specs).get? idx
          = some (none, b.prepared.col_specs.get ⟨idx, hcl⟩) :=
        (List.get?_zip_eq_some _ _ _ _).mpr ⟨hgap, hspec⟩
      rw [hzip]
      rfl
    have hzipearlier : ∀ j < idx, ∃ v spec,
        (b.values.zip b.prepared.col_specs).get? j = some (some v, spec)
          ∧ (serializeValue v spec.typ).isSome := by
      intro j hj
      obtain ⟨v, spec, hv, hs, hser⟩ := hearlier j hj
      exact ⟨v, spec, (List.get?_zip_eq_some _ _ _ _).mpr ⟨hv, hs⟩, hser⟩
    have hrun : serializeSlotsByIndex 0 (b.values.zip b.prepared.col_specs)
        SerializedValues.new = .error (.MissingValueAtIndex (0 + idx)) :=
      serializeSlotsByIndex_missing_of_first_gap hzipgap hzipearlier
    rw [Nat.zero_add] at hrun
    exact byIndexFinish_error_iff.mpr hrun

/-- Witness for C3: against the one-column prepared statement, index 1 is out
of bounds (`NoSuchIndex(1)`), re-binding index 0 yields `DuplicatedValue(0)`,
and finishing the fresh binder yields `MissingValueAtIndex(0)`. -/
theorem by_index_binder_errors_witness :
    (witnessPrepared.by_index_binder).bind_value_by_index 1 (.text "remote")
        = .error (.NoSuchIndex 1)
  ∧ (⟨witnessPrepared, [some (.text "local")]⟩
        : ByIndexStatementBinder).bind_value_by_index 0 (.text "remote")
        = .error (.DuplicatedValue 0)
  ∧ (witnessPrepared.by_index_binder).finish
        = .error (.MissingValueAtIndex 0) :=
  ⟨(by_index_binder_errors witnessPrepared.by_index_binder (by decide)).1 1
      (.text "remote") (by decide),
   (by_index_binder_errors ⟨witnessPrepared, [some (.text "local")]⟩
      (by decide)).2.1 0 (.text "remote") (.text "local") (by decide),
   (by_index_binder_errors witnessPrepared.by_index_binder (by decide)).2.2.2 0
      (by decide) (fun j hj => absurd hj (by omega))⟩

/-! ## The by-name binder: helper lemmas and C4 -/

/-- Mapping a function over an `Except` preserves errors exactly. -/
lemma except_map_error_iff {α β ε : Type} (f : α → β) (x : Except ε α)
    (e : ε) : x.map f = .error e ↔ x = .error e := by
  cases x <;> simp [Except.map]

/-- When no column spec carries the requested name, the by-name lookup loop
reports `NoSuchName` (this also covers the slot vector running out first). -/
lemma bindSlotByName_no_such_name {name : String} {v : Value}
    {slots : List (Option Value)} {specs : List ColumnSpec}
    (h : ∀ spec ∈ specs, spec.name ≠ name) :
    bindSlotByName name v slots specs = .error (.NoSuchName name) := by
  induction specs generalizing slots with
  | nil => cases slots <;> rfl
  | cons s ss ih =>
      cases slots with
      | nil => rfl
      | cons t ts =>
          have hs : s.name ≠ name := h s (by simp)
          simp only [bindSlotByName, if_neg hs]
          rw [ih fun spec hs' => h spec (by simp [hs'])]
          rfl

/-- When the first column spec carrying the requested name sits at position
`j` and slot `j` is already filled, the by-name lookup loop reports
`DuplicatedValue`. -/
lemma bindSlotByName_duplicated {name : String} {v : Value}
    {slots : List (Option Value)} {specs : List ColumnSpec} {j : Nat}
    {spec : ColumnSpec} {w : Value}
    (hspec : specs.get? j = some spec) (hname : spec.name = name)
    (hfirst : ∀ j' < j, ∀ spec', specs.get? j' = some spec' →
      spec'.name ≠ name)
    (hslot : slots.get? j = some (some w)) :
    bindSlotByName name v slots specs = .error (.DuplicatedValue name) := by
  induction specs generalizing slots j with
  | nil => simp [List.get?] at hspec
  | cons s ss ih =>
      cases slots with
      | nil => simp [List.get?] at hslot
      | cons t ts =>
          cases j with
          | zero =>
              simp only [List.get?, Option.some_inj] at hspec hslot
              subst hspec
              subst hslot
              simp only [bindSlotByName, if_pos hname]
          | succ j' =>
              have hs : s.name ≠ name := hfirst 0 (Nat.succ_pos j') s rfl
              simp only [bindSlotByName, if_neg hs]
              rw [ih (by simpa [List.get?] using hspec)
                (fun i hi spec' hsp => hfirst (i + 1) (by omega) spec'
                  (by simpa [List.get?] using hsp))
                (by simpa [List.get?] using hslot)]
              rfl

/-- When the first column spec carrying the requested name sits at position
`j` and slot `j` is still empty, the by-name lookup loop accepts the value —
whatever it is, since nothing is serialized at bind time. -/
lemma bindSlotByName_ok_of_first_empty {name : String} {v : Value}
    {slots : List (Option Value)} {specs : List ColumnSpec} {j : Nat}
    {spec : ColumnSpec}
    (hspec : specs.get? j = some spec) (hname : spec.name = name)
    (hfirst : ∀ j' < j, ∀ spec', specs.get? j' = some spec' →
      spec'.name ≠ name)
    (hslot : slots.get? j = some none) :
    bindSlotByName name v slots specs = .ok (slots.set j (some v)) := by
  induction specs generalizing slots j with
  | nil => simp [List.get?] at hspec
  | cons s ss ih =>
      cases slots with
      | nil => simp [List.get?] at hslot
      | cons t ts =>
          cases j with
          | zero =>
              simp only [List.get?, Option.some_inj] at hspec hslot
              subst hspec
              subst hslot
              simp only [bindSlotByName, if_pos hname, List.set]
          | succ j' =>
              have hs : s.name ≠ name := hfirst 0 (Nat.succ_pos j') s rfl
              simp only [bindSlotByName, if_neg hs]
              rw [ih (by simpa [List.get?] using hspec)
                (fun i hi spec' hsp => hfirst (i + 1) (by omega) spec'
                  (by simpa [List.get?] using hsp))
                (by simpa [List.get?] using hslot)]
              rfl

/-- The by-name lookup loop never reports a `Serialization` error: it stores
the value without serializing it. -/
lemma bindSlotByName_ne_serialization (name : String) (v : Value)
    (slots : List (Option Value)) (specs : List ColumnSpec) :
    bindSlotByName name v slots specs ≠ .error .Serialization := by
  induction specs generalizing slots with
  | nil => cases slots <;> simp [bindSlotByName]
  | cons s ss ih =>
      cases slots with
      | nil => simp [bindSlotByName]
      | cons t ts =>
          simp only [bindSlotByName]
          split
          · cases t <;> simp
          · intro hcontra
            rw [except_map_error_iff] at hcontra
            exact ih ts hcontra

/-- A successful by-name lookup keeps the slot vector's length. -/
lemma bindSlotByName_ok_length {name : String} {v : Value}
    {slots slots2 : List (Option Value)} {specs : List ColumnSpec}
    (h : bindSlotByName name v slots specs = .ok slots2) :
    slots2.length = slots.length := by
  induction specs generalizing slots slots2 with
  | nil => cases slots <;> cases h
  | cons s ss ih =>
      cases slots with
      | nil => cases h
      | cons t ts =>
          simp only [bindSlotByName] at h
          split at h
          · cases t with
            | none =>
                cases h
                simp
            | some w => cases h
          · rcases hrec : bindSlotByName name v ts ss with e | ts2
            · rw [hrec] at h
              cases h
            · rw [hrec] at h
              cases h
              simpa using ih hrec

/-- If the by-name serialization loop reports a missing value for `nm`, then
some slot is empty, its column is named `nm`, and every slot before it is
filled. -/
lemma serializeSlotsByName_missing {l : List (Option Value × ColumnSpec)}
    {nm : String} {acc : SerializedValues}
    (h : serializeSlotsByName l acc = .error (.MissingValueForParameter nm)) :
    ∃ j spec, l.get? j = some (none, spec) ∧ spec.name = nm
      ∧ ∀ j' < j, (l.get? j').map Prod.fst ≠ some none := by
  induction l generalizing acc with
  | nil => cases h
  | cons p rest ih =>
      rcases p with ⟨slot, spec⟩
      rcases slot with _ | v
      · simp only [serializeSlotsByName] at h
        cases h
        exact ⟨0, spec, rfl, rfl, fun j hj => absurd hj (by omega)⟩
      · simp only [serializeSlotsByName] at h
        split at h
        · cases h
        · obtain ⟨j, spec', hj, hnm, hearlier⟩ := ih h
          refine ⟨j + 1, spec', by simpa [List.get?] using hj, hnm, ?_⟩
          intro j' hj'
          cases j' with
          | zero => simp
          | succ i =>
              have hi : i < j := by omega
              simpa [List.get?] using hearlier i hi

/-- If slot `j` is the first empty slot and every earlier slot holds a value
that serializes against its column's type, the by-name serialization loop
reports a missing value for slot `j`'s column name. -/
lemma serializeSlotsByName_missing_of_first_gap
    {l : List (Option Value × ColumnSpec)} {j : Nat} {spec : ColumnSpec}
    {acc : SerializedValues}
    (hgap : l.get? j = some (none, spec))
    (hearlier : ∀ j' < j, ∃ v spec', l.get? j' = some (some v, spec')
      ∧ (serializeValue v spec'.typ).isSome) :
    serializeSlotsByName l acc
      = .error (.MissingValueForParameter spec.name) := by
  induction l generalizing j acc with
  | nil => simp [List.get?] at hgap
  | cons p rest ih =>
      rcases p with ⟨slot, spec'⟩
      cases j with
      | zero =>
          simp only [List.get?, Option.some_inj, Prod.mk.injEq] at hgap
          obtain ⟨rfl, rfl⟩ := hgap
          rfl
      | succ j' =>
          obtain ⟨v, spec'', hv, hser⟩ := hearlier 0 (Nat.succ_pos j')
          simp only [List.get?, Option.some_inj, Prod.mk.injEq] at hv
          obtain ⟨rfl, rfl⟩ := hv
          obtain ⟨bs, hbs⟩ := Option.isSome_iff_exists.mp hser
          simp only [serializeSlotsByName, hbs]
          refine ih (by simpa [List.get?] using hgap) ?_
          intro i hi
          have := hearlier (i + 1) (by omega)
          simpa [List.get?] using this

/-- If slot `j` holds the first problem — a value that does not serialize —
and every earlier slot holds a serializable value, the by-name serialization
loop reports a `Serialization` error. -/
lemma serializeSlotsByName_serialization_of_first_bad
    {l : List (Option Value × ColumnSpec)} {j : Nat} {acc : SerializedValues}
    (hbad : ∃ v spec, l.get? j = some (some v, spec)
      ∧ serializeValue v spec.typ = none)
    (hearlier : ∀ j' < j, ∃ v spec, l.get? j' = some (some v, spec)
      ∧ (serializeValue v spec.typ).isSome) :
    serializeSlotsByName l acc = .error .Serialization := by
  induction l generalizing j acc with
  | nil =>
      obtain ⟨v, spec, hv, -⟩ := hbad
      simp [List.get?] at hv
  | cons p rest ih =>
      rcases p with ⟨slot, spec⟩
      cases j with
      | zero =>
          obtain ⟨v, spec', hv, hser⟩ := hbad
          simp only [List.get?, Option.some_inj, Prod.mk.injEq] at hv
          obtain ⟨rfl, rfl⟩ := hv
          simp [serializeSlotsByName, hser]
      | succ j' =>
          obtain ⟨v, spec', hv, hser⟩ := hearlier 0 (Nat.succ_pos j')
          simp only [List.get?, Option.some_inj, Prod.mk.injEq] at hv
          obtain ⟨rfl, rfl⟩ := hv
          obtain ⟨bs, hbs⟩ := Option.isSome_iff_exists.mp hser
          simp only [serializeSlotsByName, hbs]
          refine ih (j := j') ?_ ?_
          · obtain ⟨v', spec'', hv', hbad'⟩ := hbad
            exact ⟨v', spec'', by simpa [List.get?] using hv', hbad'⟩
          · intro i hi
            have := hearlier (i + 1) (by omega)
            simpa [List.get?] using this

/-- A successful run of the by-name serialization loop appends exactly one
serialized value per slot. -/
lemma serializeSlotsByName_ok {l : List (Option Value × ColumnSpec)}
    {acc sv : SerializedValues}
    (h : serializeSlotsByName l acc = .ok sv) :
    sv.element_count = acc.element_count + l.length := by
  induction l generalizing acc with
  | nil =>
      cases h
      simp
  | cons p rest ih =>
      rcases p with ⟨slot, spec⟩
      rcases slot with _ | v
      · cases h
      · simp only [serializeSlotsByName] at h
        split at h
        · cases h
        · have := ih h
          simp only [SerializedValues.addSerialized] at this
          simp only [List.length_cons]
          omega

/-- The by-name `finish` fails with an error exactly when its serialization
loop does. -/
lemma byNameFinish_error_iff {b : ByNameStatementBinder}
    {e : ByNameStatementBinderError} :
    b.finish = .error e
      ↔ serializeSlotsByName (b.values.zip b.prepared.col_specs)
          SerializedValues.new = .error e := by
  unfold ByNameStatementBinder.finish
  exact except_map_error_iff _ _ _

/-- With pairwise-distinct column names, a column spec found at position `j`
is the first (and only) one carrying its name. -/
lemma nodup_names_first_match {specs : List ColumnSpec} {j : Nat}
    {spec : ColumnSpec}
    (hnodup : (specs.map ColumnSpec.name).Nodup)
    (hspec : specs.get? j = some spec) :
    ∀ j' < j, ∀ spec', specs.get? j' = some spec' →
      spec'.name ≠ spec.name := by
  intro j' hj' spec' hspec' hcontra
  have h1 : (specs.map ColumnSpec.name).get? j = some spec.name := by
    rw [List.get?_map, hspec]
    rfl
  have h2 : (specs.map ColumnSpec.name).get? j' = some spec'.name := by
    rw [List.get?_map, hspec']
    rfl
  have hlt : j' < (specs.map ColumnSpec.name).length :=
    (List.get?_eq_some.mp h2).1
  have heq : j' = j := List.get?_inj hlt hnodup (by rw [h2, h1, hcontra])
  omega

/-- C4: for the by-name binder over columns with pairwise-distinct names:
`bind_value_by_name(name, v)` returns `NoSuchName(name)` when no variable
column has that name (the lookup is the linear search embedded in
`bindSlotByName`) and `DuplicatedValue(name)` when the column with that name
already has a bound value; whenever `finish` returns
`MissingValueForParameter(nm)`, `nm` names the first column in declared order
whose slot is empty, and conversely `finish` does report the first empty
slot's column name provided the values before that slot serialize. -/
theorem by_name_binder_errors (b : ByNameStatementBinder)
    (hwf : b.values.length = b.prepared.col_specs.length)
    (hnodup : (b.prepared.col_specs.map ColumnSpec.name).Nodup) :
    (∀ name v, (∀ spec ∈ b.prepared.col_specs, spec.name ≠ name) →
        b.bind_value_by_name name v = .error (.NoSuchName name))
  ∧ (∀ name v j spec w, b.prepared.col_specs.get? j = some spec →
        spec.name = name → b.values.get? j = some (some w) →
        b.bind_value_by_name name v = .error (.DuplicatedValue name))
  ∧ (∀ nm, b.finish = .error (.MissingValueForParameter nm) →
        ∃ idx spec, b.values.get? idx = some none
          ∧ b.prepared.col_specs.get? idx = some spec ∧ spec.name = nm
          ∧ ∀ j < idx, b.values.get? j ≠ some none)
  ∧ (∀ idx spec, b.values.get? idx = some none →
        b.prepared.col_specs.get? idx = some spec →
        (∀ j < idx, ∃ v spec', b.values.get? j = some (some v)
          ∧ b.prepared.col_specs.get? j = some spec'
          ∧ (serializeValue v spec'.typ).isSome) →
        b.finish = .error (.MissingValueForParameter spec.name)) := by
  refine ⟨?_, ?_, ?_, ?_⟩
  · intro name v h
    unfold ByNameStatementBinder.bind_value_by_name
    rw [bindSlotByName_no_such_name h]
    rfl
  · intro name v j spec w hspec hname hslot
    unfold ByNameStatementBinder.bind_value_by_name
    have hfirst := nodup_names_first_match hnodup hspec
    rw [bindSlotByName_duplicated hspec hname
      (fun j' hj' spec' hs => hname ▸ hfirst j' hj' spec' hs) hslot]
    rfl
  · intro nm hfin
    have hinner := byNameFinish_error_iff.mp hfin
    obtain ⟨j, spec, hj, hnm, hearlier⟩ := serializeSlotsByName_missing hinner
    obtain ⟨h1, h2⟩ := (List.get?_zip_eq_some _ _ _ _).mp hj
    have hjlt : j < (b.values.zip b.prepared.col_specs).length :=
      (List.get?_eq_some.mp hj).1
    rw [List.length_zip, hwf, Nat.min_self] at hjlt
    refine ⟨j, spec, by simpa using h1, by simpa using h2, hnm, ?_⟩
    intro i hi hcontra
    have hilen : i < b.prepared.col_specs.length := by omega
    have hspec' := List.get?_eq_get hilen
    have hzip : (b.values.zip b.prepared.col_specs).get? i
        = some (none, b.prepared.col_specs.get ⟨i, hilen⟩) :=
      (List.get?_zip_eq_some _ _ _ _).mpr ⟨hcontra, hspec'⟩
    exact hearlier i hi (by rw [hzip]; rfl)
  · intro idx spec hgap hspec hearlier
    have hzipgap : (b.values.zip b.prepared.col_specs).get? idx
        = some (none, spec) :=
      (List.get?_zip_eq_some _ _ _ _).mpr ⟨hgap, hspec⟩
    have hzipearlier : ∀ j < idx, ∃ v spec',
        (b.values.zip b.prepared.col_specs).get? j = some (some v, spec')
          ∧ (serializeValue v spec'.typ).isSome := by
      intro j hj
      obtain ⟨v, spec', hv, hs, hser⟩ := hearlier j hj
      exact ⟨v, spec', (List.get?_zip_eq_some _ _ _ _).mpr ⟨hv, hs⟩, hser⟩
    exact byNameFinish_error_iff.mpr
      (serializeSlotsByName_missing_of_first_gap hzipgap hzipearlier)

/-- Witness for C4: against the one-column (`key`) prepared statement,
binding `value` yields `NoSuchName`, re-binding `key` yields
`DuplicatedValue(key)`, and finishing the fresh binder yields
`MissingValueForParameter(key)`. -/
theorem by_name_binder_errors_witness :
    (witnessPrepared.by_name_binder).bind_value_by_name "value"
        (.text "remote") = .error (.NoSuchName "value")
  ∧ (⟨witnessPrepared, [some (.text "local")]⟩
        : ByNameStatementBinder).bind_value_by_name "key" (.text "remote")
        = .error (.DuplicatedValue "key")
  ∧ (witnessPrepared.by_name_binder).finish
        = .error (.MissingValueForParameter "key") :=
  ⟨(by_name_binder_errors witnessPrepared.by_name_binder (by decide)
      (by decide)).1 "value" (.text "remote") (by decide),
   (by_name_binder_errors ⟨witnessPrepared, [some (.text "local")]⟩
      (by decide) (by decide)).2.1 "key" (.text "remote") 0
      ⟨"key", ColumnType.text⟩ (.text "local") (by decide) rfl (by decide),
   (by_name_binder_errors witnessPrepared.by_name_binder (by decide)
      (by decide)).2.2.2 0 ⟨"key", ColumnType.text⟩ (by decide) (by decide)
      (fun j hj => absurd hj (by omega))⟩

/-! ## C6: partition-key count validation -/

/-- C6: `compute_token_preserialized(ks, table, sv)` fails with
`PartitionKeyCountMismatch(received = sv.count, expected = pk column count)`
whenever the value count of `sv` differs from the table's partition-key
column count — for any buffer contents — and succeeds on any well-formed
buffer whose count matches. -/
theorem compute_token_preserialized_count_mismatch (hash : Bytes → Int)
    (cs : ClusterState) (ks table : String) (pkSpecs : List ColumnType)
    (hlookup : cs.lookupTable ks table = some pkSpecs) :
    (∀ sv : SerializedValues, sv.element_count ≠ pkSpecs.length →
        cs.compute_token_preserialized hash ks table sv
          = .error (.PartitionKeyCountMismatch ks table sv.element_count
              pkSpecs.length))
  ∧ (∀ comps : List Bytes, (∀ b ∈ comps, b.length < 2 ^ 32) →
        comps.length = pkSpecs.length →
        cs.compute_token_preserialized hash ks table (svOfList comps)
          = .ok (hash (pkHashInput comps))) := by
  constructor
  · intro sv hne
    unfold ClusterState.compute_token_preserialized
    simp only [hlookup]
    rw [if_neg hne]
  · intro comps hbound hlen
    unfold ClusterState.compute_token_preserialized
    simp only [hlookup, svOfList]
    rw [if_pos hlen, readValues_encodeValues comps hbound]

/-- Witness for C6: against table `t2` with a two-component partition key, a
buffer holding a single serialized `int` yields
`PartitionKeyCountMismatch(received = 1, expected = 2)`, while a two-value
buffer computes a token. -/
theorem compute_token_preserialized_count_mismatch_witness :
    witnessClusterState.compute_token_preserialized witnessHash "ks" "t2"
        (svOfList [encodeBE32 17])
      = .error (.PartitionKeyCountMismatch "ks" "t2" 1 2)
  ∧ witnessClusterState.compute_token_preserialized witnessHash "ks" "t2"
        (svOfList [encodeBE32 17, encodeBE32 16])
      = .ok (witnessHash (pkHashInput [encodeBE32 17, encodeBE32 16])) :=
  ⟨(compute_token_preserialized_count_mismatch witnessHash witnessClusterState
      "ks" "t2" [ColumnType.int, ColumnType.int] (by decide)).1
      (svOfList [encodeBE32 17]) (by decide),
   (compute_token_preserialized_count_mismatch witnessHash witnessClusterState
      "ks" "t2" [ColumnType.int, ColumnType.int] (by decide)).2
      [encodeBE32 17, encodeBE32 16] (by decide) (by decide)⟩

/-! ## C7: the value-count invariant of BoundStatement -/

/-- Mapping a function over an `Except` produces `ok` exactly from `ok`. -/
lemma except_map_ok_iff {α β ε : Type} (f : α → β) (x : Except ε α) (b : β) :
    x.map f = .ok b ↔ ∃ a, x = .ok a ∧ f a = b := by
  cases x <;> simp [Except.map]

/-- Counterexample for C7 as stated: `new_untyped` validates nothing, so
pairing the one-column prepared statement with an empty `SerializedValues`
buffer constructs a `BoundStatement` holding 0 values for 1 variable
column. -/
theorem new_untyped_value_count_counterexample :
    (BoundStatement.new_untyped witnessPrepared
        SerializedValues.new).values.element_count
      ≠ (BoundStatement.new_untyped witnessPrepared
        SerializedValues.new).prepared.col_specs.length := by
  decide

/-- C7 (amended): every `BoundStatement` constructed through a validating
path — the serializing constructors (`new_owned`/`new_borrowed`, both of
which delegate to `serialize_values`) or any binder's `finish` — holds
exactly one serialized value per variable column; the auxiliary conjuncts
show the by-index/by-name slot-vector length invariant that the binder
constructors establish and `bind` preserves. (`new_untyped` is excluded: it
performs no validation.) -/
theorem bound_statement_value_count_invariant :
    (∀ p values bs, BoundStatement.new_owned p values = some bs →
        bs.values.element_count = bs.prepared.col_specs.length)
  ∧ (∀ (b : AppendingStatementBinder) bs, b.finish = .ok bs →
        bs.values.element_count = bs.prepared.col_specs.length)
  ∧ (∀ (b : ByIndexStatementBinder) bs,
        b.values.length = b.prepared.col_specs.length → b.finish = .ok bs →
        bs.values.element_count = bs.prepared.col_specs.length)
  ∧ (∀ (b : ByNameStatementBinder) bs,
        b.values.length = b.prepared.col_specs.length → b.finish = .ok bs →
        bs.values.element_count = bs.prepared.col_specs.length)
  ∧ (∀ p : PreparedStatement,
        (p.by_index_binder).values.length = p.col_specs.length
          ∧ (p.by_name_binder).values.length = p.col_specs.length)
  ∧ (∀ (b : ByIndexStatementBinder) idx v b2,
        b.bind_value_by_index idx v = .ok b2 →
        b2.values.length = b.values.length ∧ b2.prepared = b.prepared)
  ∧ (∀ (b : ByNameStatementBinder) name v b2,
        b.bind_value_by_name name v = .ok b2 →
        b2.values.length = b.values.length ∧ b2.prepared = b.prepared) := by
  refine ⟨?_, ?_, ?_, ?_, ?_, ?_, ?_⟩
  · intro p values bs h
    simp only [BoundStatement.new_owned, SerializedValues.fromSerializable,
      Option.map_eq_some'] at h
    obtain ⟨sv, ⟨comps, hrow, rfl⟩, rfl⟩ := h
    have hlen := (serializeRow_spec hrow).1
    simp only [svOfList]
    simpa using hlen
  · intro b bs h
    rw [finish_eq] at h
    split at h
    · rename_i heq
      cases h
      simpa using heq.symm
    · cases h
  · intro b bs hwf h
    unfold ByIndexStatementBinder.finish at h
    obtain ⟨sv, hsv, rfl⟩ := (except_map_ok_iff _ _ _).mp h
    have := serializeSlotsByIndex_ok hsv
    simp only [SerializedValues.new, List.length_zip, hwf, Nat.min_self]
      at this
    simpa using this
  · intro b bs hwf h
    unfold ByNameStatementBinder.finish at h
    obtain ⟨sv, hsv, rfl⟩ := (except_map_ok_iff _ _ _).mp h
    have := serializeSlotsByName_ok hsv
    simp only [SerializedValues.new, List.length_zip, hwf, Nat.min_self]
      at this
    simpa using this
  · intro p
    constructor <;>
      simp [PreparedStatement.by_index_binder,
        PreparedStatement.by_name_binder]
  · intro b idx v b2 h
    simp only [ByIndexStatementBinder.bind_value_by_index] at h
    split at h
    · cases h
    · cases h
    · cases h
      simp
  · intro b name v b2 h
    unfold ByNameStatementBinder.bind_value_by_name at h
    obtain ⟨slots2, hslots, rfl⟩ := (except_map_ok_iff _ _ _).mp h
    exact ⟨bindSlotByName_ok_length hslots, rfl⟩

/-- Witness for C7 (amended): the bound statement obtained by finishing the
appending binder holding one serialized value over the one-column prepared
statement satisfies the invariant. -/
theorem bound_statement_value_count_invariant_witness :
    (⟨witnessPrepared, ⟨[0, 0, 0, 5, 108, 111, 99, 97, 108], 1⟩⟩
        : BoundStatement).values.element_count
      = (⟨witnessPrepared, ⟨[0, 0, 0, 5, 108, 111, 99, 97, 108], 1⟩⟩
        : BoundStatement).prepared.col_specs.length :=
  bound_statement_value_count_invariant.2.1
    ⟨witnessPrepared, ⟨[0, 0, 0, 5, 108, 111, 99, 97, 108], 1⟩⟩
    ⟨witnessPrepared, ⟨[0, 0, 0, 5, 108, 111, 99, 97, 108], 1⟩⟩ rfl

/-! ## C10: deferred serialization in the by-index and by-name binders -/

/-- C10: the by-index and by-name `bind` operations never return a
`Serialization` error — values are stored unserialized, so a type-mismatched
value is accepted at bind time (`bind` succeeds on any empty slot regardless
of the value) — and the `Serialization` error surfaces only at `finish`,
which both binders do report when the first problem slot in declared order
holds a value that does not serialize against its column's type. -/
theorem bind_never_serialization_error :
    (∀ (b : ByIndexStatementBinder) idx v,
        b.bind_value_by_index idx v ≠ .error .Serialization)
  ∧ (∀ (b : ByNameStatementBinder) name v,
        b.bind_value_by_name name v ≠ .error .Serialization)
  ∧ (∀ (b : ByIndexStatementBinder) idx v, b.values.get? idx = some none →
        b.bind_value_by_index idx v
          = .ok ⟨b.prepared, b.values.set idx (some v)⟩)
  ∧ (∀ (b : ByNameStatementBinder) name v j spec,
        b.prepared.col_specs.get? j = some spec → spec.name = name →
        (∀ j' < j, ∀ spec', b.prepared.col_specs.get? j' = some spec' →
          spec'.name ≠ name) →
        b.values.get? j = some none →
        b.bind_value_by_name name v
          = .ok ⟨b.prepared, b.values.set j (some v)⟩)
  ∧ (∀ (b : ByIndexStatementBinder) idx v spec,
        b.values.get? idx = some (some v) →
        b.prepared.col_specs.get? idx = some spec →
        serializeValue v spec.typ = none →
        (∀ j < idx, ∃ v' spec', b.values.get? j = some (some v')
          ∧ b.prepared.col_specs.get? j = some spec'
          ∧ (serializeValue v' spec'.typ).isSome) →
        b.finish = .error .Serialization)
  ∧ (∀ (b : ByNameStatementBinder) idx v spec,
        b.values.get? idx = some (some v) →
        b.prepared.col_specs.get? idx = some spec →
        serializeValue v spec.typ = none →
        (∀ j < idx, ∃ v' spec', b.values.get? j = some (some v')
          ∧ b.prepared.col_specs.get? j = some spec'
          ∧ (serializeValue v' spec'.typ).isSome) →
        b.finish = .error .Serialization) := by
  refine ⟨?_, ?_, ?_, ?_, ?_, ?_⟩
  · intro b idx v
    simp only [ByIndexStatementBinder.bind_value_by_index]
    split <;> simp
  · intro b name v hcontra
    unfold ByNameStatementBinder.bind_value_by_name at hcontra
    rw [except_map_error_iff] at hcontra
    exact bindSlotByName_ne_serialization name v b.values
      b.prepared.col_specs hcontra
  · intro b idx v hempty
    simp only [ByIndexStatementBinder.bind_value_by_index, hempty]
  · intro b name v j spec hspec hname hfirst hempty
    unfold ByNameStatementBinder.bind_value_by_name
    rw [bindSlotByName_ok_of_first_empty hspec hname hfirst hempty]
    rfl
  · intro b idx v spec hv hspec hbad hearlier
    have hzipbad : ∃ v' spec',
        (b.values.zip b.prepared.col_specs).get? idx = some (some v', spec')
          ∧ serializeValue v' spec'.typ = none :=
      ⟨v, spec, (List.get?_zip_eq_some _ _ _ _).mpr ⟨hv, hspec⟩, hbad⟩
    have hzipearlier : ∀ j < idx, ∃ v' spec',
        (b.values.zip b.prepared.col_specs).get? j = some (some v', spec')
          ∧ (serializeValue v' spec'.typ).isSome := by
      intro j hj
      obtain ⟨v', spec', hv', hs', hser⟩ := hearlier j hj
      exact ⟨v', spec', (List.get?_zip_eq_some _ _ _ _).mpr ⟨hv', hs'⟩, hser⟩
    exact byIndexFinish_error_iff.mpr
      (serializeSlotsByIndex_serialization_of_first_bad hzipbad hzipearlier)
  · intro b idx v spec hv hspec hbad hearlier
    have hzipbad : ∃ v' spec',
        (b.values.zip b.prepared.col_specs).get? idx = some (some v', spec')
          ∧ serializeValue v' spec'.typ = none :=
      ⟨v, spec, (List.get?_zip_eq_some _ _ _ _).mpr ⟨hv, hspec⟩, hbad⟩
    have hzipearlier : ∀ j < idx, ∃ v' spec',
        (b.values.zip b.prepared.col_specs).get? j = some (some v', spec')
          ∧ (serializeValue v' spec'.typ).isSome := by
      intro j hj
      obtain ⟨v', spec', hv', hs', hser⟩ := hearlier j hj
      exact ⟨v', spec', (List.get?_zip_eq_some _ _ _ _).mpr ⟨hv', hs'⟩, hser⟩
    exact byNameFinish_error_iff.mpr
      (serializeSlotsByName_serialization_of_first_bad hzipbad hzipearlier)

/-- Witness for C10: the ill-typed value `42` for the text column `key` is
accepted by both binders at bind time, and finishing either binder with it
surfaces the `Serialization` error. -/
theorem bind_never_serialization_error_witness :
    (witnessPrepared.by_index_binder).bind_value_by_index 0 (.int 42)
        = .ok ⟨witnessPrepared, [some (.int 42)]⟩
  ∧ (⟨witnessPrepared, [some (.int 42)]⟩ : ByIndexStatementBinder).finish
        = .error .Serialization
  ∧ (witnessPrepared.by_name_binder).bind_value_by_name "key" (.int 42)
        = .ok ⟨witnessPrepared, [some (.int 42)]⟩
  ∧ (⟨witnessPrepared, [some (.int 42)]⟩ : ByNameStatementBinder).finish
        = .error .Serialization :=
  ⟨bind_never_serialization_error.2.2.1 witnessPrepared.by_index_binder 0
      (.int 42) (by decide),
   bind_never_serialization_error.2.2.2.2.1
      ⟨witnessPrepared, [some (.int 42)]⟩ 0 (.int 42)
      ⟨"key", ColumnType.text⟩ (by decide) (by decide) (by decide)
      (fun j hj => absurd hj (by omega)),
   bind_never_serialization_error.2.2.2.1 witnessPrepared.by_name_binder
      "key" (.int 42) 0 ⟨"key", ColumnType.text⟩ (by decide) rfl
      (fun j' hj' spec' hs => absurd hj' (by omega)) (by decide),
   bind_never_serialization_error.2.2.2.2.2
      ⟨witnessPrepared, [some (.int 42)]⟩ 0 (.int 42)
      ⟨"key", ColumnType.text⟩ (by decide) (by decide) (by decide)
      (fun j hj => absurd hj (by omega))⟩

end ScyllaDriver
